import Mathlib

/-!
Verification of the aggregation-and-caching engine of the PagerDuty MCP apps
repository: a shallow embedding in Lean 4 of `src/mcp-apps/lib/aggregations.ts`
(aggregation functions and the `DataCache` class concatenated into that file)
and `src/mcp-apps/lib/pagerduty-client.ts` (the upstream adapter), together
with theorems settling the frozen claims about that code.

Modelling conventions:
- Timestamps (`created_at`, `resolved_at`, `Date.now()`) are epoch
  milliseconds as `Int`; `new Date(s).getTime()` on an ISO string is the
  identity under this convention and `toISOString` is injective, so equality
  and ordering of the string timestamps coincide with those of the integers.
  The server clock is taken to run in UTC, so `setMinutes(0,0,0)` /
  `setHours(0,0,0,0)` round an epoch-millisecond value down to a multiple of
  an hour / a day.
- JavaScript `Map` is modelled as an insertion-ordered association list with
  unique keys; `Map.set` replaces the value at an existing key in place and
  otherwise appends at the end, exactly as the JS iteration order behaves.
- `Array.prototype.sort` (stable since ES2019) is modelled by a stable
  insertion sort parameterised by the boolean comparator.
- Exact rational arithmetic (`ℚ`) stands for JavaScript float arithmetic in
  the average-resolution-time computation; integer percentages are computed
  with exact natural-number arithmetic.
- An `async` fetcher is modelled by its single outcome, `Except ε α`; the
  instrumented cache operation additionally returns whether the fetcher ran.
-/

namespace PDMCP

/-- Lifecycle status of an incident (`IncidentSchema.status` in
`schemas.ts`: "triggered" | "acknowledged" | "resolved"). -/
inductive IncidentStatus
  | triggered
  | acknowledged
  | resolved
deriving DecidableEq, Repr

/-- Incident urgency (`IncidentSchema.urgency`: "high" | "low"). -/
inductive Urgency
  | high
  | low
deriving DecidableEq, Repr

/-- Reference to the service owning an incident
(`ServiceReferenceSchema`: the fields the aggregation code reads). -/
structure ServiceRef where
  id : String
  summary : String
deriving DecidableEq, Repr

/-- An incident record (`IncidentSchema`, restricted to the fields the
aggregation code reads). `created_at`/`resolved_at` are epoch ms. -/
structure Incident where
  id : String
  incident_number : Nat
  title : String
  status : IncidentStatus
  urgency : Urgency
  created_at : Int
  resolved_at : Option Int
  service : ServiceRef
deriving DecidableEq, Repr

/-- A service record (`ServiceSchema`, fields read by `aggregateByService`). -/
structure Service where
  id : String
  name : String
deriving DecidableEq, Repr

/-! Association lists with insertion order, modelling JavaScript `Map`. -/

/-- Lookup of the first binding of `k`, modelling `Map.get` /
`Map.has` (via `Option.isSome`). -/
def alGet {κ β : Type} [DecidableEq κ] : List (κ × β) → κ → Option β
  | [], _ => none
  | (k2, v) :: rest, k => if k2 = k then some v else alGet rest k

/-- `Map.set`: replace the value at an existing key in place, otherwise
append the new binding at the end (JS insertion order). -/
def alSet {κ β : Type} [DecidableEq κ] : List (κ × β) → κ → β → List (κ × β)
  | [], k, v => [(k, v)]
  | (k2, v2) :: rest, k, v =>
    if k2 = k then (k2, v) :: rest else (k2, v2) :: alSet rest k v

/-! The `DataCache` class (`aggregations.ts`, caching-layer section).
A cache value is the association list of entries; `getOrFetch` is the
get-or-fetch contract of lines 343-367, instrumented with a boolean
recording whether the fetcher was invoked. -/

/-- A cache entry (`CacheEntry<T>`): payload, insertion timestamp, TTL. -/
structure CacheEntry (α : Type) where
  data : α
  timestamp : Int
  ttl : Int
deriving DecidableEq, Repr

/-- `DataCache.getOrFetch(key, fetcher, ttl)` at clock reading `now`
(`Date.now()`).  Returns the outcome handed to the caller, the cache map
after the call, and whether `fetcher` was invoked.  On a fresh entry
(`now - cached.timestamp < cached.ttl`) it returns the stored data without
fetching; otherwise it runs the fetcher, and only on success stores the
result with timestamp `now` (failure propagates before `cache.set` runs). -/
def getOrFetch {α ε : Type} (cache : List (String × CacheEntry α)) (key : String)
    (fetcher : Except ε α) (ttl : Int) (now : Int) :
    Except ε α × List (String × CacheEntry α) × Bool :=
  match alGet cache key with
  | some cached =>
    if now - cached.timestamp < cached.ttl then
      (.ok cached.data, cache, false)
    else
      match fetcher with
      | .ok data => (.ok data, alSet cache key ⟨data, now, ttl⟩, true)
      | .error e => (.error e, cache, true)
  | none =>
    match fetcher with
    | .ok data => (.ok data, alSet cache key ⟨data, now, ttl⟩, true)
    | .error e => (.error e, cache, true)

/-! Basic association-list lemmas. -/

theorem alGet_alSet_self {κ β : Type} [DecidableEq κ] (m : List (κ × β)) (k : κ) (v : β) :
    alGet (alSet m k v) k = some v := by
  induction m with
  | nil => simp [alGet, alSet]
  | cons p rest ih =>
    obtain ⟨k2, v2⟩ := p
    by_cases h : k2 = k
    · simp [alGet, alSet, h]
    · simp [alGet, alSet, h, ih]

theorem alGet_alSet_ne {κ β : Type} [DecidableEq κ] (m : List (κ × β)) (k k2 : κ) (v : β)
    (h : k2 ≠ k) : alGet (alSet m k v) k2 = alGet m k2 := by
  have hne : ¬ (k = k2) := fun hh => h hh.symm
  induction m with
  | nil => simp [alGet, alSet, hne]
  | cons p rest ih =>
    obtain ⟨k3, v3⟩ := p
    by_cases h3 : k3 = k
    · subst h3
      simp [alGet, alSet, hne]
    · by_cases h4 : k3 = k2
      · simp [alGet, alSet, h3, h4, h]
      · simp [alGet, alSet, h3, h4, h, ih]

/-- Claim C1 — cache get-or-fetch contract: a call while the stored entry is
fresh (`now - timestamp < ttl` of the entry) returns the stored value without
invoking the fetcher; on a missing or expired entry it invokes the fetcher,
stores the result with timestamp `now` and the call's TTL, and returns it;
hence two calls for one key within the TTL window fetch exactly once, and a
call before plus a call after expiry fetch twice. -/
theorem cache_getOrFetch_contract {α ε : Type}
    (c : List (String × CacheEntry α)) (key : String) (ttl now : Int) :
    (∀ e : CacheEntry α, alGet c key = some e → now - e.timestamp < e.ttl →
      ∀ fetcher : Except ε α, getOrFetch c key fetcher ttl now = (.ok e.data, c, false)) ∧
    (alGet c key = none → ∀ d : α,
      getOrFetch c key (Except.ok (ε := ε) d) ttl now =
        (.ok d, alSet c key ⟨d, now, ttl⟩, true)) ∧
    (∀ e : CacheEntry α, alGet c key = some e → e.ttl ≤ now - e.timestamp → ∀ d : α,
      getOrFetch c key (Except.ok (ε := ε) d) ttl now =
        (.ok d, alSet c key ⟨d, now, ttl⟩, true)) ∧
    (alGet c key = none → ∀ (d : α) (t2 : Int) (fetcher2 : Except ε α),
      t2 - now < ttl →
      getOrFetch c key (Except.ok (ε := ε) d) ttl now =
        (.ok d, alSet c key ⟨d, now, ttl⟩, true) ∧
      getOrFetch (alSet c key ⟨d, now, ttl⟩) key fetcher2 ttl t2 =
        (.ok d, alSet c key ⟨d, now, ttl⟩, false)) ∧
    (alGet c key = none → ∀ (d d2 : α) (t2 : Int),
      ttl ≤ t2 - now →
      getOrFetch c key (Except.ok (ε := ε) d) ttl now =
        (.ok d, alSet c key ⟨d, now, ttl⟩, true) ∧
      getOrFetch (alSet c key ⟨d, now, ttl⟩) key (Except.ok (ε := ε) d2) ttl t2 =
        (.ok d2, alSet (alSet c key ⟨d, now, ttl⟩) key ⟨d2, t2, ttl⟩, true)) := by
  refine ⟨?_, ?_, ?_, ?_, ?_⟩
  · intro e he hfresh fetcher
    simp [getOrFetch, he, hfresh]
  · intro hnone d
    simp [getOrFetch, hnone]
  · intro e he hexp d
    simp [getOrFetch, he, not_lt.mpr hexp]
  · intro hnone d t2 fetcher2 hfresh
    refine ⟨by simp [getOrFetch, hnone], ?_⟩
    simp [getOrFetch, alGet_alSet_self, hfresh]
  · intro hnone d d2 t2 hexp
    refine ⟨by simp [getOrFetch, hnone], ?_⟩
    simp [getOrFetch, alGet_alSet_self, not_lt.mpr hexp]

/-- Witness for C1 at a concrete cache, key, TTL and clock readings. -/
theorem cache_getOrFetch_contract_witness :
    getOrFetch (α := Nat) (ε := String) [] "incidents:a" (.ok 7) 30000 1000 =
      (.ok 7, [("incidents:a", ⟨7, 1000, 30000⟩)], true) ∧
    getOrFetch (α := Nat) (ε := String)
        [("incidents:a", ⟨7, 1000, 30000⟩)] "incidents:a" (.ok 9) 30000 2000 =
      (.ok 7, [("incidents:a", ⟨7, 1000, 30000⟩)], false) ∧
    getOrFetch (α := Nat) (ε := String)
        [("incidents:a", ⟨7, 1000, 30000⟩)] "incidents:a" (.ok 9) 30000 31000 =
      (.ok 9, [("incidents:a", ⟨9, 31000, 30000⟩)], true) := by
  have h := cache_getOrFetch_contract (α := Nat) (ε := String) [] "incidents:a" 30000 1000
  refine ⟨((h.2.2.2.1 rfl 7 2000 (.ok 9) (by decide)).1), ?_, ?_⟩
  · exact ((h.2.2.2.1 rfl 7 2000 (.ok 9) (by decide)).2)
  · exact ((h.2.2.2.2 rfl 7 9 31000 (by decide)).2)

/-- Claim C2 — no-poison-on-failure: on a miss or an expired entry, a failing
fetcher propagates its error and the cache map is returned unchanged (no entry
is written), and the immediately following `getOrFetch` for the same key
invokes its fetcher again. -/
theorem cache_getOrFetch_no_poison {α ε : Type}
    (c : List (String × CacheEntry α)) (key : String) (ttl now : Int) (err : ε) :
    (alGet c key = none →
      getOrFetch (α := α) c key (.error err) ttl now = (.error err, c, true) ∧
      ∀ (d : α) (ttl2 now2 : Int),
        getOrFetch (α := α) (ε := ε) c key (.ok d) ttl2 now2 =
          (.ok d, alSet c key ⟨d, now2, ttl2⟩, true)) ∧
    (∀ e : CacheEntry α, alGet c key = some e → e.ttl ≤ now - e.timestamp →
      getOrFetch (α := α) c key (.error err) ttl now = (.error err, c, true) ∧
      ∀ (d : α) (ttl2 now2 : Int), now ≤ now2 →
        getOrFetch (α := α) (ε := ε) c key (.ok d) ttl2 now2 =
          (.ok d, alSet c key ⟨d, now2, ttl2⟩, true)) := by
  constructor
  · intro hnone
    refine ⟨by simp [getOrFetch, hnone], ?_⟩
    intro d ttl2 now2
    simp [getOrFetch, hnone]
  · intro e he hexp
    refine ⟨by simp [getOrFetch, he, not_lt.mpr hexp], ?_⟩
    intro d ttl2 now2 hle
    have hexp2 : e.ttl ≤ now2 - e.timestamp := le_trans hexp (by omega)
    simp [getOrFetch, he, not_lt.mpr hexp2]

/-- Witness for C2: a failing fetch on an empty cache propagates the error,
writes nothing, and the next call fetches again. -/
theorem cache_getOrFetch_no_poison_witness :
    getOrFetch (α := Nat) [] "incidents:a" (.error "boom") 30000 1000 =
      (.error "boom", [], true) ∧
    getOrFetch (α := Nat) (ε := String) [] "incidents:a" (.ok 5) 30000 2000 =
      (.ok 5, [("incidents:a", ⟨5, 2000, 30000⟩)], true) := by
  have h := (cache_getOrFetch_no_poison (α := Nat) [] "incidents:a" 30000 1000 "boom").1 rfl
  exact ⟨h.1, h.2 5 30000 2000⟩

/-! Stable sort modelling `Array.prototype.sort` (stable since ES2019) with
a boolean comparator: `le x y` holds when the JS comparator maps `(x, y)` to
a value `≤ 0`, so the sorted output is pairwise `le`-related. -/

/-- Insert `a` after every element `b` of the already-sorted list with
`le b a`, keeping equal elements in first-seen order (stability). -/
def insertSorted {α : Type} (le : α → α → Bool) (a : α) : List α → List α
  | [] => [a]
  | b :: l => if le b a then b :: insertSorted le a l else a :: b :: l

/-- Stable sort by repeated insertion, front to back. -/
def jsSort {α : Type} (le : α → α → Bool) (l : List α) : List α :=
  l.foldl (fun acc a => insertSorted le a acc) []

theorem insertSorted_perm {α : Type} (le : α → α → Bool) (a : α) (l : List α) :
    (insertSorted le a l).Perm (a :: l) := by
  induction l with
  | nil => simp [insertSorted]
  | cons b l ih =>
    by_cases h : le b a
    · simpa [insertSorted, h] using ((ih.cons b).trans (List.Perm.swap a b l))
    · simp [insertSorted, h]

theorem jsSort_go_perm {α : Type} (le : α → α → Bool) (l acc : List α) :
    (l.foldl (fun acc a => insertSorted le a acc) acc).Perm (l ++ acc) := by
  induction l generalizing acc with
  | nil => simp
  | cons x xs ih =>
    have h1 := ih (insertSorted le x acc)
    have h2 : (xs ++ insertSorted le x acc).Perm (xs ++ x :: acc) :=
      (insertSorted_perm le x acc).append_left xs
    exact (h1.trans h2).trans List.perm_middle

theorem jsSort_perm {α : Type} (le : α → α → Bool) (l : List α) :
    (jsSort le l).Perm l := by
  simpa [jsSort] using jsSort_go_perm le l []

theorem insertSorted_pairwise {α : Type} {le : α → α → Bool}
    (htot : ∀ a b, le a b = true ∨ le b a = true)
    (htrans : ∀ a b c, le a b = true → le b c = true → le a c = true)
    (a : α) (l : List α) (hl : l.Pairwise (fun x y => le x y = true)) :
    (insertSorted le a l).Pairwise (fun x y => le x y = true) := by
  induction l with
  | nil => simp [insertSorted]
  | cons b l ih =>
    rcases List.pairwise_cons.mp hl with ⟨hb, hl2⟩
    by_cases h : le b a = true
    · rw [insertSorted, if_pos h]
      refine List.pairwise_cons.mpr ⟨?_, ih hl2⟩
      intro x hx
      rcases List.mem_cons.mp ((insertSorted_perm le a l).mem_iff.mp hx) with rfl | hx2
      · exact h
      · exact hb x hx2
    · rw [insertSorted, if_neg h]
      have hab : le a b = true := (htot a b).resolve_right h
      refine List.pairwise_cons.mpr ⟨?_, hl⟩
      intro x hx
      rcases List.mem_cons.mp hx with rfl | hx2
      · exact hab
      · exact htrans a b x hab (hb x hx2)

theorem jsSort_pairwise {α : Type} {le : α → α → Bool}
    (htot : ∀ a b, le a b = true ∨ le b a = true)
    (htrans : ∀ a b c, le a b = true → le b c = true → le a c = true)
    (l : List α) :
    (jsSort le l).Pairwise (fun x y => le x y = true) := by
  suffices h : ∀ acc : List α, acc.Pairwise (fun x y => le x y = true) →
      (l.foldl (fun acc a => insertSorted le a acc) acc).Pairwise
        (fun x y => le x y = true) by
    exact h [] (List.Pairwise.nil)
  induction l with
  | nil => intro acc hacc; simpa using hacc
  | cons x xs ih =>
    intro acc hacc
    exact ih _ (insertSorted_pairwise htot htrans x acc hacc)

/-! Time-series bucketing (`aggregateIncidentTimeline` and `getBucketKey`,
`aggregations.ts` lines 24-83). -/

/-- Bucket width (the `bucketSize` argument: "hour" | "day"). -/
inductive BucketSize
  | hour
  | day
deriving DecidableEq, Repr

/-- `getBucketKey`: the incident's `created_at` rounded down to the start of
its hour (`setMinutes(0,0,0)`) or day (`setHours(0,0,0,0)`), as epoch ms of a
UTC clock.  `%` on `Int` is the nonnegative euclidean remainder, so
`t - t % w` is the greatest multiple of `w` that is `≤ t`. -/
def getBucketKey (t : Int) : BucketSize → Int
  | .hour => t - t % 3600000
  | .day => t - t % 86400000

/-- One time-series bucket (`TimeSeriesDataPoint`); `timestamp` is the bucket
key, the bucket start instant. -/
structure TimeSeriesDataPoint where
  timestamp : Int
  triggered : Nat
  acknowledged : Nat
  resolved : Nat
  total : Nat
deriving DecidableEq, Repr

/-- The zero-count bucket created on first sight of a bucket key. -/
def newBucket (k : Int) : TimeSeriesDataPoint :=
  ⟨k, 0, 0, 0, 0⟩

/-- Count one incident into a bucket: `bucket.total++` plus the
per-status counter for the incident's status. -/
def bumpBucket (b : TimeSeriesDataPoint) (s : IncidentStatus) : TimeSeriesDataPoint :=
  let b2 := { b with total := b.total + 1 }
  match s with
  | .triggered => { b2 with triggered := b2.triggered + 1 }
  | .acknowledged => { b2 with acknowledged := b2.acknowledged + 1 }
  | .resolved => { b2 with resolved := b2.resolved + 1 }

/-- The body of the `incidents.forEach` loop: create the bucket for `k` if
absent (`buckets.set`), then count the incident into it. -/
def bucketUpsert (m : List (Int × TimeSeriesDataPoint)) (k : Int)
    (s : IncidentStatus) : List (Int × TimeSeriesDataPoint) :=
  match m with
  | [] => [(k, bumpBucket (newBucket k) s)]
  | (k2, b) :: rest =>
    if k2 = k then (k2, bumpBucket b s) :: rest
    else (k2, b) :: bucketUpsert rest k s

/-- The `buckets` map after the `forEach` loop of `aggregateIncidentTimeline`. -/
def bucketMapOf (incidents : List Incident) (bucketSize : BucketSize) :
    List (Int × TimeSeriesDataPoint) :=
  incidents.foldl
    (fun m i => bucketUpsert m (getBucketKey i.created_at bucketSize) i.status) []

/-- `aggregateIncidentTimeline`: bucket every incident by its rounded
`created_at`, then sort the bucket values ascending by timestamp. -/
def aggregateIncidentTimeline (incidents : List Incident)
    (bucketSize : BucketSize) : List TimeSeriesDataPoint :=
  jsSort (fun a b => decide (a.timestamp ≤ b.timestamp))
    ((bucketMapOf incidents bucketSize).map Prod.snd)

/-! Per-service health rollup (`aggregateByService`, `aggregations.ts`
lines 88-171). -/

/-- Derived service status ("healthy" | "warning" | "critical"). -/
inductive HealthStatus
  | healthy
  | warning
  | critical
deriving DecidableEq, Repr

/-- One row of the service-health table (`ServiceHealth` in `schemas.ts`). -/
structure ServiceHealth where
  service_id : String
  service_name : String
  incident_count : Nat
  high_urgency_count : Nat
  low_urgency_count : Nat
  avg_resolution_time_minutes : Option ℚ
  status : HealthStatus
deriving DecidableEq, Repr

/-- The zero row seeded for a service before incidents are counted. -/
def initialHealth (id name : String) : ServiceHealth :=
  ⟨id, name, 0, 0, 0, none, .healthy⟩

/-- Count one incident into a service row: `incident_count++` plus the
matching urgency counter. -/
def bumpHealth (h : ServiceHealth) (u : Urgency) : ServiceHealth :=
  let h2 := { h with incident_count := h.incident_count + 1 }
  match u with
  | .high => { h2 with high_urgency_count := h2.high_urgency_count + 1 }
  | .low => { h2 with low_urgency_count := h2.low_urgency_count + 1 }

/-- `(resolvedAt - createdAt) / (1000 * 60)`: the incident's resolution time
in minutes (exact rational arithmetic for the JS float computation).  Only
evaluated on incidents whose `resolved_at` is present. -/
def resolutionMinutes (i : Incident) : ℚ :=
  ((i.resolved_at.getD 0 - i.created_at : ℤ) : ℚ) / 60000

/-- The filter `i.status === "resolved" && i.resolved_at` selecting incidents
that enter resolution-time statistics. -/
def isResolvedWithTimestamp (i : Incident) : Bool :=
  decide (i.status = IncidentStatus.resolved) && i.resolved_at.isSome

/-- The serviceMap part of the per-incident loop body: create the row for
the incident's service if absent (taking `service.summary` as its name),
then count the incident into it. -/
def healthUpsert (m : List (String × ServiceHealth)) (i : Incident) :
    List (String × ServiceHealth) :=
  match m with
  | [] => [(i.service.id, bumpHealth (initialHealth i.service.id i.service.summary) i.urgency)]
  | (k, h) :: rest =>
    if k = i.service.id then (k, bumpHealth h i.urgency) :: rest
    else (k, h) :: healthUpsert rest i

/-- Append a resolution time to the `resolutionTimes` list of a service
(`resolutionTimes.get(serviceId)!.push(...)`, creating the list if absent). -/
def rtPush (rt : List (String × List ℚ)) (k : String) (x : ℚ) :
    List (String × List ℚ) :=
  match rt with
  | [] => [(k, [x])]
  | (k2, xs) :: rest =>
    if k2 = k then (k2, xs ++ [x]) :: rest else (k2, xs) :: rtPush rest k x

/-- One iteration of the `incidents.forEach` loop of `aggregateByService`
over the pair (serviceMap, resolutionTimes). -/
def svcStep (acc : List (String × ServiceHealth) × List (String × List ℚ))
    (i : Incident) : List (String × ServiceHealth) × List (String × List ℚ) :=
  (healthUpsert acc.1 i,
    if isResolvedWithTimestamp i then rtPush acc.2 i.service.id (resolutionMinutes i)
    else acc.2)

/-- The initial seeding loop: one zero row per catalog service
(`services.forEach((service) => serviceMap.set(service.id, ...))`). -/
def seedServices (services : List Service) : List (String × ServiceHealth) :=
  services.foldl (fun m s => alSet m s.id (initialHealth s.id s.name)) []

/-- The status thresholds of the final loop: 0 and `≤ 2` map to healthy,
`≤ 5` to warning, otherwise critical. -/
def serviceStatusOf (n : Nat) : HealthStatus :=
  if n = 0 then .healthy
  else if n ≤ 2 then .healthy
  else if n ≤ 5 then .warning
  else .critical

/-- The final `serviceMap.forEach`: fill in the average resolution time when
any was recorded for the service, then derive the status from the count. -/
def finalizeHealth (rt : List (String × List ℚ)) (p : String × ServiceHealth) :
    ServiceHealth :=
  let h := p.2
  let h2 :=
    match alGet rt p.1 with
    | some times =>
      if 0 < times.length then
        { h with avg_resolution_time_minutes := some (times.sum / (times.length : ℚ)) }
      else h
    | none => h
  { h2 with status := serviceStatusOf h2.incident_count }

/-- `aggregateByService`: seed the catalog, fold the incidents, finalize each
row, and sort descending by `incident_count`. -/
def aggregateByService (incidents : List Incident) (services : List Service) :
    List ServiceHealth :=
  let state := incidents.foldl svcStep (seedServices services, [])
  jsSort (fun a b => decide (b.incident_count ≤ a.incident_count))
    (state.1.map (finalizeHealth state.2))

/-! Urgency distribution and MTTR (`aggregations.ts` lines 176-214). -/

/-- Urgency counts and integer percentages (`UrgencyDistribution`). -/
structure UrgencyDistribution where
  high : Nat
  low : Nat
  total : Nat
  high_percent : Nat
  low_percent : Nat
deriving DecidableEq, Repr

/-- `Math.round((num / den) * 100)` in exact arithmetic for `den > 0`:
`⌊100 num / den + 1/2⌋ = (200 num + den) / (2 den)` in natural division. -/
def roundPct (num den : Nat) : Nat :=
  (200 * num + den) / (2 * den)

/-- `calculateUrgencyDistribution`: high/low counts over the snapshot plus
rounded percentages, both zero when the snapshot is empty. -/
def calculateUrgencyDistribution (incidents : List Incident) : UrgencyDistribution :=
  let high := (incidents.filter (fun i => decide (i.urgency = Urgency.high))).length
  let low := (incidents.filter (fun i => decide (i.urgency = Urgency.low))).length
  let total := incidents.length
  ⟨high, low, total,
    if 0 < total then roundPct high total else 0,
    if 0 < total then roundPct low total else 0⟩

/-- `calculateAvgResolutionTime`: `null` when no incident is resolved with a
resolution timestamp, otherwise the arithmetic mean of the per-incident
resolution minutes. -/
def calculateAvgResolutionTime (incidents : List Incident) : Option ℚ :=
  let resolvedIncidents := incidents.filter isResolvedWithTimestamp
  if resolvedIncidents.length = 0 then none
  else
    some ((resolvedIncidents.foldl (fun sum i => sum + resolutionMinutes i) 0) /
      (resolvedIncidents.length : ℚ))

/-! Dashboard generation (`generateDashboardData`, `aggregations.ts` lines
219-270) and the polling stats (`generateIncidentStats`, lines 275-312).
Both read the wall clock (`new Date()` / `Date.now()`), modelled by the
explicit `now` parameter (epoch ms). -/

/-- The requested dashboard range ("24h" | "7d" | "30d"). -/
inductive TimeRange
  | h24
  | d7
  | d30
deriving DecidableEq, Repr

/-- Width of the requested range in ms (`setHours(now.getHours() - 24)` /
`setDate(now.getDate() - 7)` / `- 30`, on a UTC clock without DST). -/
def rangeMs : TimeRange → Int
  | .h24 => 24 * 3600000
  | .d7 => 7 * 86400000
  | .d30 => 30 * 86400000

/-- Start of the UTC day containing `t`; two instants are on the same
calendar day (`toDateString()` equality on a UTC clock) iff they have
equal day floors. -/
def dayFloor (t : Int) : Int :=
  t - t % 86400000

/-- `i.status === "triggered" || i.status === "acknowledged"`. -/
def isActive (i : Incident) : Bool :=
  decide (i.status = IncidentStatus.triggered) ||
    decide (i.status = IncidentStatus.acknowledged)

/-- The `summary` block of the dashboard payload. -/
structure DashboardSummary where
  total_incidents : Nat
  active_incidents : Nat
  resolved_today : Nat
  avg_resolution_time_minutes : Option ℚ
deriving DecidableEq, Repr

/-- The `time_range` block: resolved window bounds plus the label. -/
structure TimeRangeInfo where
  start : Int
  «end» : Int
  label : TimeRange
deriving DecidableEq, Repr

/-- The full dashboard payload (`IncidentDashboardData`). -/
structure IncidentDashboardData where
  summary : DashboardSummary
  timeline : List TimeSeriesDataPoint
  service_health : List ServiceHealth
  urgency_distribution : UrgencyDistribution
  time_range : TimeRangeInfo
  generated_at : Int
deriving DecidableEq, Repr

/-- `generateDashboardData(incidents, services, timeRange)` at clock reading
`now`: summary counters, hourly timeline for "24h" and daily otherwise,
service health, urgency distribution, the resolved window, and the
generation instant. -/
def generateDashboardData (incidents : List Incident) (services : List Service)
    (timeRange : TimeRange) (now : Int) : IncidentDashboardData :=
  let since := now - rangeMs timeRange
  let activeIncidents := incidents.filter isActive
  let resolvedToday := incidents.filter (fun i =>
    decide (i.status = IncidentStatus.resolved) && i.resolved_at.isSome &&
      decide (dayFloor (i.resolved_at.getD 0) = dayFloor now))
  { summary :=
      { total_incidents := incidents.length
        active_incidents := activeIncidents.length
        resolved_today := resolvedToday.length
        avg_resolution_time_minutes := calculateAvgResolutionTime incidents }
    timeline := aggregateIncidentTimeline incidents
      (if timeRange = TimeRange.h24 then BucketSize.hour else BucketSize.day)
    service_health := aggregateByService incidents services
    urgency_distribution := calculateUrgencyDistribution incidents
    time_range := { start := since, «end» := now, label := timeRange }
    generated_at := now }

/-- One element of `recent_incidents` in the polling payload. -/
structure RecentIncident where
  id : String
  incident_number : Nat
  title : String
  status : IncidentStatus
  urgency : Urgency
  service_name : String
  created_at : Int
deriving DecidableEq, Repr

/-- The polling payload (`IncidentStats`). -/
structure IncidentStats where
  timestamp : Int
  active_incidents : Nat
  triggered_count : Nat
  acknowledged_count : Nat
  high_urgency_count : Nat
  low_urgency_count : Nat
  recent_incidents : List RecentIncident
deriving DecidableEq, Repr

/-- `generateIncidentStats(incidents)` at clock reading `now`: active and
per-status / per-urgency counts, plus the five most recent active incidents
sorted newest first. -/
def generateIncidentStats (incidents : List Incident) (now : Int) : IncidentStats :=
  let activeIncidents := incidents.filter isActive
  let recent :=
    ((jsSort (fun a b => decide (b.created_at ≤ a.created_at)) activeIncidents).take 5).map
      (fun i => RecentIncident.mk i.id i.incident_number i.title i.status i.urgency
        i.service.summary i.created_at)
  { timestamp := now
    active_incidents := activeIncidents.length
    triggered_count := (incidents.filter (fun i => decide (i.status = IncidentStatus.triggered))).length
    acknowledged_count := (incidents.filter (fun i => decide (i.status = IncidentStatus.acknowledged))).length
    high_urgency_count := (incidents.filter (fun i => decide (i.urgency = Urgency.high))).length
    low_urgency_count := (incidents.filter (fun i => decide (i.urgency = Urgency.low))).length
    recent_incidents := recent }

/-! The upstream adapter (`pagerduty-client.ts`).  The external API holds a
full, ordered collection of records matching the request filter; a page
request returns the `limit`-sized slice at `offset` plus a `more` flag.
Caching (`cache.getOrFetch` around the fetcher) is the mechanism verified
above and is orthogonal to page handling, so the fetcher bodies are modelled
directly. -/

/-- The response shape of the `/incidents` endpoint (`IncidentListSchema`):
the page plus its paging metadata. -/
structure IncidentPage where
  incidents : List Incident
  limit : Nat
  offset : Nat
  more : Bool
deriving DecidableEq, Repr

/-- One upstream `/incidents` page request: the slice of the matching
collection starting at `offset`, at most `limit` long, with `more` set when
records remain past the slice. -/
def apiIncidentsPage (upstream : List Incident) (limit offset : Nat) : IncidentPage :=
  { incidents := (upstream.drop offset).take limit
    limit := limit
    offset := offset
    more := decide (offset + limit < upstream.length) }

/-- JavaScript `value || default` on an optional numeric parameter: `0` is
falsy, so it is replaced by the default too. -/
def jsOrNum (v : Option Nat) (d : Nat) : Nat :=
  match v with
  | none => d
  | some n => if n = 0 then d else n

/-- The fetcher body of `listIncidents` (lines 91-120): one request with
`limit: params.limit || 100, offset: params.offset || 0`; no further pages
are requested regardless of the `more` flag. -/
def listIncidentsFetch (upstream : List Incident) (limit offset : Option Nat) :
    IncidentPage :=
  apiIncidentsPage upstream (jsOrNum limit 100) (jsOrNum offset 0)

/-- `getRecentIncidents` (lines 161-186): a single `listIncidents` call with
`limit: 1000` for the requested window, returning `result.incidents`. -/
def getRecentIncidents (upstream : List Incident) : List Incident :=
  (listIncidentsFetch upstream (some 1000) none).incidents

/-- Modelled from the spec: "Pagination is fully drained by the adapter -
callers never see partial pages" (section 4.2).  The repository's adapter has
no draining loop, so this is the spec's drained variant for comparison: keep
requesting pages, advancing `offset` by `limit`, while `more` is set.  The
fuel bounds recursion and suffices for any positive `limit`. -/
def drainPagesAux (upstream : List Incident) (limit : Nat) :
    Nat → Nat → List Incident
  | _, 0 => []
  | offset, fuel + 1 =>
    let page := apiIncidentsPage upstream limit offset
    if page.more then
      page.incidents ++ drainPagesAux upstream limit (offset + limit) fuel
    else
      page.incidents

/-- Modelled from the spec: the drained incident listing, starting at
offset 0 with enough fuel for the whole collection. -/
def listIncidentsDrainedSpec (upstream : List Incident) (limit : Nat) :
    List Incident :=
  drainPagesAux upstream limit 0 (upstream.length + 1)

/-! Lemmas about the bucketing loop. -/

theorem bumpBucket_total (b : TimeSeriesDataPoint) (s : IncidentStatus) :
    (bumpBucket b s).total = b.total + 1 := by
  cases s <;> rfl

theorem bumpBucket_timestamp (b : TimeSeriesDataPoint) (s : IncidentStatus) :
    (bumpBucket b s).timestamp = b.timestamp := by
  cases s <;> rfl

/-- Total incident count stored in a bucket map. -/
def sumTotals (m : List (Int × TimeSeriesDataPoint)) : Nat :=
  (m.map (fun p => p.2.total)).sum

theorem sumTotals_bucketUpsert (m : List (Int × TimeSeriesDataPoint)) (k : Int)
    (s : IncidentStatus) : sumTotals (bucketUpsert m k s) = sumTotals m + 1 := by
  induction m with
  | nil => simp [sumTotals, bucketUpsert, bumpBucket_total, newBucket]
  | cons p rest ih =>
    obtain ⟨k2, b⟩ := p
    by_cases h : k2 = k
    · simp only [bucketUpsert, if_pos h, sumTotals, List.map_cons, List.sum_cons,
        bumpBucket_total]
      omega
    · simp only [bucketUpsert, if_neg h, sumTotals, List.map_cons, List.sum_cons] at *
      omega

theorem mem_keys_bucketUpsert (m : List (Int × TimeSeriesDataPoint)) (k : Int)
    (s : IncidentStatus) (t : Int) :
    t ∈ (bucketUpsert m k s).map Prod.fst ↔ t = k ∨ t ∈ m.map Prod.fst := by
  induction m with
  | nil => simp [bucketUpsert, eq_comm]
  | cons p rest ih =>
    obtain ⟨k2, b⟩ := p
    by_cases h : k2 = k
    · subst h
      simp [bucketUpsert, eq_comm]
    · simp [bucketUpsert, h, ih]
      tauto

theorem bucketUpsert_timestamp_inv (m : List (Int × TimeSeriesDataPoint)) (k : Int)
    (s : IncidentStatus) (hm : ∀ p ∈ m, (p : Int × TimeSeriesDataPoint).2.timestamp = p.1) :
    ∀ p ∈ bucketUpsert m k s, (p : Int × TimeSeriesDataPoint).2.timestamp = p.1 := by
  induction m with
  | nil =>
    intro p hp
    simp [bucketUpsert] at hp
    subst hp
    simp [bumpBucket_timestamp, newBucket]
  | cons q rest ih =>
    obtain ⟨k2, b⟩ := q
    intro p hp
    by_cases h : k2 = k
    · rw [bucketUpsert, if_pos h] at hp
      rcases List.mem_cons.mp hp with rfl | hp2
      · simpa [bumpBucket_timestamp] using hm (k2, b) (List.mem_cons_self _ _)
      · exact hm p (List.mem_cons_of_mem _ hp2)
    · rw [bucketUpsert, if_neg h] at hp
      rcases List.mem_cons.mp hp with rfl | hp2
      · exact hm (k2, b) (List.mem_cons_self _ _)
      · exact ih (fun q hq => hm q (List.mem_cons_of_mem _ hq)) p hp2

theorem bucketUpsert_total_pos (m : List (Int × TimeSeriesDataPoint)) (k : Int)
    (s : IncidentStatus) (hm : ∀ p ∈ m, 1 ≤ (p : Int × TimeSeriesDataPoint).2.total) :
    ∀ p ∈ bucketUpsert m k s, 1 ≤ (p : Int × TimeSeriesDataPoint).2.total := by
  induction m with
  | nil =>
    intro p hp
    simp [bucketUpsert] at hp
    subst hp
    simp [bumpBucket_total]
  | cons q rest ih =>
    obtain ⟨k2, b⟩ := q
    intro p hp
    by_cases h : k2 = k
    · rw [bucketUpsert, if_pos h] at hp
      rcases List.mem_cons.mp hp with rfl | hp2
      · simp [bumpBucket_total]
      · exact hm p (List.mem_cons_of_mem _ hp2)
    · rw [bucketUpsert, if_neg h] at hp
      rcases List.mem_cons.mp hp with rfl | hp2
      · exact hm (k2, b) (List.mem_cons_self _ _)
      · exact ih (fun q hq => hm q (List.mem_cons_of_mem _ hq)) p hp2

theorem sumTotals_bucketFoldGo (I : List Incident) (bs : BucketSize) :
    ∀ m, sumTotals (I.foldl
        (fun m i => bucketUpsert m (getBucketKey i.created_at bs) i.status) m) =
      sumTotals m + I.length := by
  induction I with
  | nil => intro m; simp
  | cons i I ih =>
    intro m
    simp only [List.foldl_cons, List.length_cons]
    rw [ih, sumTotals_bucketUpsert]
    omega

theorem mem_keys_bucketFoldGo (I : List Incident) (bs : BucketSize) :
    ∀ m t, t ∈ (I.foldl
        (fun m i => bucketUpsert m (getBucketKey i.created_at bs) i.status) m).map Prod.fst ↔
      t ∈ m.map Prod.fst ∨ ∃ i ∈ I, getBucketKey i.created_at bs = t := by
  induction I with
  | nil => intro m t; simp
  | cons i I ih =>
    intro m t
    simp only [List.foldl_cons]
    rw [ih, mem_keys_bucketUpsert]
    constructor
    · rintro ((rfl | h) | ⟨j, hj, hk⟩)
      · exact Or.inr ⟨i, List.mem_cons_self _ _, rfl⟩
      · exact Or.inl h
      · exact Or.inr ⟨j, List.mem_cons_of_mem _ hj, hk⟩
    · rintro (h | ⟨j, hj, hk⟩)
      · exact Or.inl (Or.inr h)
      · rcases List.mem_cons.mp hj with rfl | hj2
        · exact Or.inl (Or.inl hk.symm)
        · exact Or.inr ⟨j, hj2, hk⟩

theorem bucketMapOf_timestamp_inv (I : List Incident) (bs : BucketSize) :
    ∀ p ∈ bucketMapOf I bs, (p : Int × TimeSeriesDataPoint).2.timestamp = p.1 := by
  suffices h : ∀ m, (∀ p ∈ m, (p : Int × TimeSeriesDataPoint).2.timestamp = p.1) →
      ∀ p ∈ I.foldl
        (fun m i => bucketUpsert m (getBucketKey i.created_at bs) i.status) m,
        (p : Int × TimeSeriesDataPoint).2.timestamp = p.1 by
    exact h [] (by simp)
  induction I with
  | nil => intro m hm; simpa using hm
  | cons i I ih =>
    intro m hm
    simp only [List.foldl_cons]
    exact ih _ (bucketUpsert_timestamp_inv m _ _ hm)

theorem bucketMapOf_total_pos (I : List Incident) (bs : BucketSize) :
    ∀ p ∈ bucketMapOf I bs, 1 ≤ (p : Int × TimeSeriesDataPoint).2.total := by
  suffices h : ∀ m, (∀ p ∈ m, 1 ≤ (p : Int × TimeSeriesDataPoint).2.total) →
      ∀ p ∈ I.foldl
        (fun m i => bucketUpsert m (getBucketKey i.created_at bs) i.status) m,
        1 ≤ (p : Int × TimeSeriesDataPoint).2.total by
    exact h [] (by simp)
  induction I with
  | nil => intro m hm; simpa using hm
  | cons i I ih =>
    intro m hm
    simp only [List.foldl_cons]
    exact ih _ (bucketUpsert_total_pos m _ _ hm)

/-- Sample incident: triggered, high urgency, created at epoch instant 0. -/
def demoIncident : Incident :=
  ⟨"i1", 1, "T", .triggered, .high, 0, none, ⟨"s1", "Svc"⟩⟩

/-- Sample incident: acknowledged, low urgency, created at 3700000 ms
(inside the second hour of the epoch day). -/
def demoIncident2 : Incident :=
  ⟨"i2", 2, "U", .acknowledged, .low, 3700000, none, ⟨"s1", "Svc"⟩⟩

/-- Claim C5 — time bucketing: the dashboard timeline uses hourly buckets
exactly for the 24h range and daily buckets otherwise; a bucket key is the
incident's `created_at` truncated down to the bucket boundary (greatest
multiple of the width that does not exceed it); a bucket timestamp occurs in
the output iff some incident floors to it, every emitted bucket holds at
least one incident, and the output is sorted ascending by bucket start. -/
theorem timeline_bucketing (I : List Incident) (S : List Service)
    (tr : TimeRange) (now : Int) :
    (generateDashboardData I S tr now).timeline =
      aggregateIncidentTimeline I
        (if tr = TimeRange.h24 then BucketSize.hour else BucketSize.day) ∧
    (∀ t : Int, getBucketKey t BucketSize.hour ≤ t ∧
      t < getBucketKey t BucketSize.hour + 3600000 ∧
      (3600000 : Int) ∣ getBucketKey t BucketSize.hour) ∧
    (∀ t : Int, getBucketKey t BucketSize.day ≤ t ∧
      t < getBucketKey t BucketSize.day + 86400000 ∧
      (86400000 : Int) ∣ getBucketKey t BucketSize.day) ∧
    ∀ bs : BucketSize,
      (∀ k : Int, (∃ b ∈ aggregateIncidentTimeline I bs, b.timestamp = k) ↔
        ∃ i ∈ I, getBucketKey i.created_at bs = k) ∧
      (∀ b ∈ aggregateIncidentTimeline I bs, 1 ≤ b.total) ∧
      (aggregateIncidentTimeline I bs).Pairwise
        (fun a b => a.timestamp ≤ b.timestamp) := by
  refine ⟨rfl, ?_, ?_, ?_⟩
  · intro t
    refine ⟨?_, ?_, ⟨t / 3600000, ?_⟩⟩ <;> simp only [getBucketKey] <;> omega
  · intro t
    refine ⟨?_, ?_, ⟨t / 86400000, ?_⟩⟩ <;> simp only [getBucketKey] <;> omega
  · intro bs
    have hperm := jsSort_perm (fun a b => decide (a.timestamp ≤ b.timestamp))
      ((bucketMapOf I bs).map Prod.snd)
    refine ⟨?_, ?_, ?_⟩
    · intro k
      constructor
      · rintro ⟨b, hb, rfl⟩
        have hb2 : b ∈ (bucketMapOf I bs).map Prod.snd := hperm.mem_iff.mp hb
        rcases List.mem_map.mp hb2 with ⟨p, hp, rfl⟩
        have hts := bucketMapOf_timestamp_inv I bs p hp
        have hk : p.1 ∈ (bucketMapOf I bs).map Prod.fst :=
          List.mem_map.mpr ⟨p, hp, rfl⟩
        have hsplit := (mem_keys_bucketFoldGo I bs [] p.1).mp
          (by simpa [bucketMapOf] using hk)
        rcases hsplit with h | h
        · simp at h
        · rw [hts]
          exact h
      · rintro ⟨i, hi, hk⟩
        have hk2 : k ∈ (bucketMapOf I bs).map Prod.fst := by
          have := (mem_keys_bucketFoldGo I bs [] k).mpr (Or.inr ⟨i, hi, hk⟩)
          simpa [bucketMapOf] using this
        rcases List.mem_map.mp hk2 with ⟨p, hp, rfl⟩
        refine ⟨p.2, ?_, bucketMapOf_timestamp_inv I bs p hp⟩
        exact hperm.mem_iff.mpr (List.mem_map.mpr ⟨p, hp, rfl⟩)
    · intro b hb
      have hb2 := hperm.mem_iff.mp hb
      rcases List.mem_map.mp hb2 with ⟨p, hp, rfl⟩
      exact bucketMapOf_total_pos I bs p hp
    · have htot : ∀ a b : TimeSeriesDataPoint,
          decide (a.timestamp ≤ b.timestamp) = true ∨
          decide (b.timestamp ≤ a.timestamp) = true := by
        intro a b
        rcases le_total a.timestamp b.timestamp with h | h
        · exact Or.inl (decide_eq_true h)
        · exact Or.inr (decide_eq_true h)
      have htrans : ∀ a b c : TimeSeriesDataPoint,
          decide (a.timestamp ≤ b.timestamp) = true →
          decide (b.timestamp ≤ c.timestamp) = true →
          decide (a.timestamp ≤ c.timestamp) = true := by
        intro a b c hab hbc
        exact decide_eq_true (le_trans (of_decide_eq_true hab) (of_decide_eq_true hbc))
      have hp := jsSort_pairwise htot htrans ((bucketMapOf I bs).map Prod.snd)
      exact hp.imp (fun h => of_decide_eq_true h)

/-- Witness for C5: a single incident created at 3700000 ms produces a
bucket starting at its hour floor 3600000. -/
theorem timeline_bucketing_witness :
    ∃ b ∈ aggregateIncidentTimeline [demoIncident2] BucketSize.hour,
      b.timestamp = 3600000 :=
  (((timeline_bucketing [demoIncident2] [] TimeRange.h24 0).2.2.2
      BucketSize.hour).1 3600000).mpr ⟨demoIncident2, by decide, by decide⟩

/-- Claim C6 (amended) — count conservation without window filtering: the
timeline buckets every incident handed to the aggregation, so the bucket
totals sum to the full snapshot length; no `[since, until)` restriction is
applied inside the aggregation. -/
theorem timeline_total_conservation (I : List Incident) (S : List Service)
    (tr : TimeRange) (now : Int) :
    (((generateDashboardData I S tr now).timeline).map (fun b => b.total)).sum =
      I.length ∧
    ∀ bs : BucketSize,
      ((aggregateIncidentTimeline I bs).map (fun b => b.total)).sum = I.length := by
  have key : ∀ bs : BucketSize,
      ((aggregateIncidentTimeline I bs).map (fun b => b.total)).sum = I.length := by
    intro bs
    have hperm := (jsSort_perm (fun a b => decide (a.timestamp ≤ b.timestamp))
      ((bucketMapOf I bs).map Prod.snd)).map (fun b => b.total)
    rw [aggregateIncidentTimeline, hperm.sum_eq, List.map_map]
    have := sumTotals_bucketFoldGo I bs []
    simpa [bucketMapOf, sumTotals, Function.comp] using this
  refine ⟨?_, key⟩
  have hdef : (generateDashboardData I S tr now).timeline =
      aggregateIncidentTimeline I
        (if tr = TimeRange.h24 then BucketSize.hour else BucketSize.day) := rfl
  rw [hdef, key]

/-- Counterexample to C6 as stated: at clock 172800000 ms with a 24h range,
an incident created at instant 0 lies outside the window
`[time_range.start, time_range.end)`, yet the bucket totals sum to 1 while
the in-window incident count is 0. -/
theorem timeline_window_counterexample :
    ¬ ((((generateDashboardData [demoIncident] [] TimeRange.h24 172800000).timeline).map
          (fun b => b.total)).sum =
        ([demoIncident].filter (fun i =>
          decide ((generateDashboardData [demoIncident] [] TimeRange.h24
              172800000).time_range.start ≤ i.created_at) &&
          decide (i.created_at < (generateDashboardData [demoIncident] []
              TimeRange.h24 172800000).time_range.«end»))).length) := by
  decide

/-- Claim C4 (amended) — determinism relative to an explicit clock: with the
wall-clock reading modelled as the explicit `now` argument, every aggregation
field of the dashboard payload (timeline, service health, urgency
distribution, total/active counts, average resolution time) and every stats
field except `timestamp` is independent of the clock reading, while
`generated_at`, `time_range` and the stats `timestamp` equal the clock
reading of the invocation. -/
theorem aggregator_fixed_clock_determinism (I : List Incident) (S : List Service)
    (tr : TimeRange) (n1 n2 : Int) :
    (generateDashboardData I S tr n1).timeline =
      (generateDashboardData I S tr n2).timeline ∧
    (generateDashboardData I S tr n1).service_health =
      (generateDashboardData I S tr n2).service_health ∧
    (generateDashboardData I S tr n1).urgency_distribution =
      (generateDashboardData I S tr n2).urgency_distribution ∧
    (generateDashboardData I S tr n1).summary.total_incidents =
      (generateDashboardData I S tr n2).summary.total_incidents ∧
    (generateDashboardData I S tr n1).summary.active_incidents =
      (generateDashboardData I S tr n2).summary.active_incidents ∧
    (generateDashboardData I S tr n1).summary.avg_resolution_time_minutes =
      (generateDashboardData I S tr n2).summary.avg_resolution_time_minutes ∧
    (generateDashboardData I S tr n1).generated_at = n1 ∧
    (generateDashboardData I S tr n1).time_range.start = n1 - rangeMs tr ∧
    (generateDashboardData I S tr n1).time_range.«end» = n1 ∧
    (generateIncidentStats I n1).timestamp = n1 ∧
    (generateIncidentStats I n1).active_incidents =
      (generateIncidentStats I n2).active_incidents ∧
    (generateIncidentStats I n1).triggered_count =
      (generateIncidentStats I n2).triggered_count ∧
    (generateIncidentStats I n1).acknowledged_count =
      (generateIncidentStats I n2).acknowledged_count ∧
    (generateIncidentStats I n1).high_urgency_count =
      (generateIncidentStats I n2).high_urgency_count ∧
    (generateIncidentStats I n1).low_urgency_count =
      (generateIncidentStats I n2).low_urgency_count ∧
    (generateIncidentStats I n1).recent_incidents =
      (generateIncidentStats I n2).recent_incidents :=
  ⟨rfl, rfl, rfl, rfl, rfl, rfl, rfl, rfl, rfl, rfl, rfl, rfl, rfl, rfl, rfl, rfl⟩

/-- Counterexample to C4 as stated: the very same arguments at two clock
readings one minute apart yield different payloads — `generated_at`,
`time_range` and the stats `timestamp` record the invocation instant, so
two invocations are not byte-identical. -/
theorem aggregator_clock_dependence_counterexample :
    generateDashboardData [] [] TimeRange.h24 0 ≠
      generateDashboardData [] [] TimeRange.h24 60000 ∧
    generateIncidentStats [] 0 ≠ generateIncidentStats [] 60000 := by
  refine ⟨?_, ?_⟩ <;> decide

/-! Urgency-distribution arithmetic. -/

theorem urgency_filter_split (I : List Incident) :
    (I.filter (fun i => decide (i.urgency = Urgency.high))).length +
      (I.filter (fun i => decide (i.urgency = Urgency.low))).length = I.length := by
  induction I with
  | nil => rfl
  | cons i I ih =>
    cases hu : i.urgency <;>
      simp only [List.filter_cons, hu, decide_eq_true_eq, List.length_cons] <;>
      simp <;> omega

theorem natDiv_sum_bound (a b t : Nat) (ht : 0 < t) (hab : a + b = 202 * t) :
    99 ≤ a / (2 * t) + b / (2 * t) ∧ a / (2 * t) + b / (2 * t) ≤ 101 := by
  obtain ⟨q1, hq1⟩ : ∃ q, a / (2 * t) = q := ⟨_, rfl⟩
  obtain ⟨q2, hq2⟩ : ∃ q, b / (2 * t) = q := ⟨_, rfl⟩
  obtain ⟨r1, hr1e⟩ : ∃ r, a % (2 * t) = r := ⟨_, rfl⟩
  obtain ⟨r2, hr2e⟩ : ∃ r, b % (2 * t) = r := ⟨_, rfl⟩
  have e1 : 2 * t * q1 + r1 = a := by
    rw [← hq1, ← hr1e]; exact Nat.div_add_mod a (2 * t)
  have e2 : 2 * t * q2 + r2 = b := by
    rw [← hq2, ← hr2e]; exact Nat.div_add_mod b (2 * t)
  have hr1 : r1 < 2 * t := by rw [← hr1e]; exact Nat.mod_lt _ (by omega)
  have hr2 : r2 < 2 * t := by rw [← hr2e]; exact Nat.mod_lt _ (by omega)
  rw [hq1, hq2]
  constructor
  · by_contra hc
    push_neg at hc
    have h1 : q1 + q2 + 1 ≤ 99 := hc
    have h2 : 2 * t * (q1 + q2 + 1) ≤ 2 * t * 99 := Nat.mul_le_mul_left (2 * t) h1
    have h3 : 2 * t * (q1 + q2 + 1) = 2 * t * q1 + 2 * t * q2 + 2 * t := by ring
    have h4 : (2 * t) * 99 = 198 * t := by ring
    rw [h3, h4] at h2
    generalize 2 * t * q1 = X at h2 e1
    generalize 2 * t * q2 = Y at h2 e2
    omega
  · by_contra hc
    push_neg at hc
    have h1 : 102 ≤ q1 + q2 := hc
    have h2 : 2 * t * 102 ≤ 2 * t * (q1 + q2) := Nat.mul_le_mul_left (2 * t) h1
    have h3 : 2 * t * (q1 + q2) = 2 * t * q1 + 2 * t * q2 := by ring
    have h4 : 2 * t * 102 = 204 * t := by ring
    rw [h3, h4] at h2
    generalize 2 * t * q1 = X at h2 e1
    generalize 2 * t * q2 = Y at h2 e2
    omega

theorem roundPct_sum (h l t : Nat) (hsum : h + l = t) (ht : 0 < t) :
    99 ≤ roundPct h t + roundPct l t ∧ roundPct h t + roundPct l t ≤ 101 := by
  have hb := natDiv_sum_bound (200 * h + t) (200 * l + t) t ht (by omega)
  simpa [roundPct] using hb

/-- Claim C8 — urgency distribution: the returned record carries the high
and low counts and the snapshot total; percentages are the exactly-rounded
`100·high/total` and `100·low/total` when the total is positive and both are
0 on an empty snapshot; for a positive total their sum lies in 100 ± 1. -/
theorem urgency_distribution_spec (I : List Incident) :
    (calculateUrgencyDistribution I).high =
      (I.filter (fun i => decide (i.urgency = Urgency.high))).length ∧
    (calculateUrgencyDistribution I).low =
      (I.filter (fun i => decide (i.urgency = Urgency.low))).length ∧
    (calculateUrgencyDistribution I).total = I.length ∧
    (calculateUrgencyDistribution I).high + (calculateUrgencyDistribution I).low =
      (calculateUrgencyDistribution I).total ∧
    ((calculateUrgencyDistribution I).total = 0 →
      (calculateUrgencyDistribution I).high_percent = 0 ∧
      (calculateUrgencyDistribution I).low_percent = 0) ∧
    (0 < (calculateUrgencyDistribution I).total →
      (calculateUrgencyDistribution I).high_percent =
        roundPct (calculateUrgencyDistribution I).high I.length ∧
      (calculateUrgencyDistribution I).low_percent =
        roundPct (calculateUrgencyDistribution I).low I.length ∧
      99 ≤ (calculateUrgencyDistribution I).high_percent +
        (calculateUrgencyDistribution I).low_percent ∧
      (calculateUrgencyDistribution I).high_percent +
        (calculateUrgencyDistribution I).low_percent ≤ 101) := by
  refine ⟨rfl, rfl, rfl, urgency_filter_split I, ?_, ?_⟩
  · intro h0
    have hlen : I.length = 0 := h0
    constructor <;> simp [calculateUrgencyDistribution, hlen]
  · intro hpos
    have hlen : 0 < I.length := hpos
    have hhp : (calculateUrgencyDistribution I).high_percent =
        roundPct ((I.filter (fun i => decide (i.urgency = Urgency.high))).length)
          I.length := by
      simp [calculateUrgencyDistribution, hlen]
    have hlp : (calculateUrgencyDistribution I).low_percent =
        roundPct ((I.filter (fun i => decide (i.urgency = Urgency.low))).length)
          I.length := by
      simp [calculateUrgencyDistribution, hlen]
    have hb := roundPct_sum
      ((I.filter (fun i => decide (i.urgency = Urgency.high))).length)
      ((I.filter (fun i => decide (i.urgency = Urgency.low))).length)
      I.length (urgency_filter_split I) hlen
    exact ⟨hhp, hlp, by rw [hhp, hlp]; exact hb.1, by rw [hhp, hlp]; exact hb.2⟩

/-- Witness for C8 on a snapshot of 3 high and 5 low incidents: both
percentages round half up (38 + 63), so the sum hits the upper bound 101. -/
theorem urgency_distribution_spec_witness :
    99 ≤ (calculateUrgencyDistribution
        (List.replicate 3 demoIncident ++ List.replicate 5 demoIncident2)).high_percent +
      (calculateUrgencyDistribution
        (List.replicate 3 demoIncident ++ List.replicate 5 demoIncident2)).low_percent ∧
    (calculateUrgencyDistribution
        (List.replicate 3 demoIncident ++ List.replicate 5 demoIncident2)).high_percent +
      (calculateUrgencyDistribution
        (List.replicate 3 demoIncident ++ List.replicate 5 demoIncident2)).low_percent ≤ 101 := by
  have h := (urgency_distribution_spec
    (List.replicate 3 demoIncident ++ List.replicate 5 demoIncident2)).2.2.2.2.2
    (by decide)
  exact ⟨h.2.2.1, h.2.2.2⟩

/-! Mean-resolution-time arithmetic. -/

theorem foldl_add_resolutionMinutes (R : List Incident) (a : ℚ) :
    R.foldl (fun sum i => sum + resolutionMinutes i) a =
      a + (R.map resolutionMinutes).sum := by
  induction R generalizing a with
  | nil => simp
  | cons i R ih => simp [ih, add_assoc]

theorem sum_map_resolutionMinutes (R : List Incident) :
    (R.map resolutionMinutes).sum =
      (R.map (fun i => ((i.resolved_at.getD 0 - i.created_at : ℤ) : ℚ))).sum / 60000 := by
  induction R with
  | nil => simp
  | cons i R ih => simp [resolutionMinutes, ih, add_div]

/-- Claim C9 — MTTR: the average resolution time is `none` exactly when no
incident of the snapshot is resolved with a resolution timestamp; otherwise
it is the plain arithmetic mean, over exactly those incidents, of
`(resolved_at - created_at)` in minutes. -/
theorem mttr_mean_null_safety (I : List Incident) :
    (calculateAvgResolutionTime I = none ↔
      ∀ i ∈ I, ¬(i.status = IncidentStatus.resolved ∧ i.resolved_at.isSome = true)) ∧
    (I.filter isResolvedWithTimestamp ≠ [] →
      calculateAvgResolutionTime I =
        some (((I.filter isResolvedWithTimestamp).map
            (fun i => ((i.resolved_at.getD 0 - i.created_at : ℤ) : ℚ))).sum /
          (60000 * (I.filter isResolvedWithTimestamp).length))) := by
  constructor
  · constructor
    · intro hnone i hi hcontra
      have hmem : i ∈ I.filter isResolvedWithTimestamp :=
        List.mem_filter.mpr ⟨hi, by
          simp [isResolvedWithTimestamp, hcontra.1, hcontra.2]⟩
      have hne : ¬((I.filter isResolvedWithTimestamp).length = 0) := by
        intro h0
        rw [List.length_eq_zero] at h0
        rw [h0] at hmem
        simp at hmem
      unfold calculateAvgResolutionTime at hnone
      rw [if_neg hne] at hnone
      simp at hnone
    · intro hall
      have hfil : I.filter isResolvedWithTimestamp = [] := by
        rw [List.filter_eq_nil_iff]
        intro i hi
        have hni := hall i hi
        simp only [isResolvedWithTimestamp, Bool.and_eq_true, decide_eq_true_eq]
        tauto
      simp [calculateAvgResolutionTime, hfil]
  · intro hne
    have hlen : ¬((I.filter isResolvedWithTimestamp).length = 0) := by
      simpa [List.length_eq_zero] using hne
    unfold calculateAvgResolutionTime
    rw [if_neg hlen]
    congr 1
    rw [foldl_add_resolutionMinutes, zero_add, sum_map_resolutionMinutes, div_div]

/-- Witness for C9: a snapshot with one unresolved incident reports a null
average resolution time. -/
theorem mttr_mean_null_safety_witness :
    calculateAvgResolutionTime [demoIncident] = none :=
  (mttr_mean_null_safety [demoIncident]).1.mpr (by decide)

/-- Sample incident: resolved at 9000000 ms after creation at 7200000 ms. -/
def demoIncident3 : Incident :=
  ⟨"i3", 3, "V", .resolved, .high, 7200000, some 9000000, ⟨"s2", "Svc2"⟩⟩

theorem drainPagesAux_drop (upstream : List Incident) (limit : Nat)
    (hl : 0 < limit) :
    ∀ fuel offset, upstream.length ≤ offset + limit * fuel →
      drainPagesAux upstream limit offset fuel = upstream.drop offset := by
  intro fuel
  induction fuel with
  | zero =>
    intro offset hle
    rw [drainPagesAux]
    symm
    exact List.drop_eq_nil_of_le (by omega)
  | succ fuel ih =>
    intro offset hle
    rw [Nat.mul_succ] at hle
    by_cases hmore : offset + limit < upstream.length
    · have h1 : drainPagesAux upstream limit offset (fuel + 1) =
          (upstream.drop offset).take limit ++
            drainPagesAux upstream limit (offset + limit) fuel := by
        rw [drainPagesAux]
        simp [apiIncidentsPage, hmore]
      rw [h1, ih (offset + limit) (by omega)]
      have hdd : upstream.drop (offset + limit) = (upstream.drop offset).drop limit := by
        rw [List.drop_drop]
      rw [hdd, List.take_append_drop]
    · have h1 : drainPagesAux upstream limit offset (fuel + 1) =
          (upstream.drop offset).take limit := by
        rw [drainPagesAux]
        simp [apiIncidentsPage, hmore]
      rw [h1]
      exact List.take_of_length_le (by simp [List.length_drop]; omega)

/-- Claim C3 (amended) — single-page adapter: `listIncidents` issues exactly
one upstream request at `offset: params.offset || 0` with
`limit: params.limit || 100` and returns only that slice; `getRecentIncidents`
asks for a single page of up to 1000 incidents, so it returns the whole
matching collection only when at most 1000 incidents match; the spec-modelled
drained adapter, by contrast, returns the whole collection for any positive
page size. -/
theorem adapter_single_page (upstream : List Incident)
    (limit offset : Option Nat) (l : Nat) :
    (listIncidentsFetch upstream limit offset).incidents =
      (upstream.drop (jsOrNum offset 0)).take (jsOrNum limit 100) ∧
    getRecentIncidents upstream = upstream.take 1000 ∧
    (upstream.length ≤ 1000 → getRecentIncidents upstream = upstream) ∧
    (0 < l → listIncidentsDrainedSpec upstream l = upstream) := by
  refine ⟨rfl, rfl, ?_, ?_⟩
  · intro hlen
    show (upstream.drop 0).take 1000 = upstream
    rw [List.drop_zero]
    exact List.take_of_length_le hlen
  · intro hl
    rw [listIncidentsDrainedSpec,
      drainPagesAux_drop upstream l hl (upstream.length + 1) 0 (by nlinarith),
      List.drop_zero]

/-- Witness for C3 (amended): a two-element collection fits in one
1000-wide page, and the spec-modelled drained adapter recovers a
three-element collection from pages of width 2. -/
theorem adapter_single_page_witness :
    getRecentIncidents [demoIncident, demoIncident2] =
      [demoIncident, demoIncident2] ∧
    listIncidentsDrainedSpec [demoIncident, demoIncident2, demoIncident3] 2 =
      [demoIncident, demoIncident2, demoIncident3] := by
  have h1 := adapter_single_page [demoIncident, demoIncident2] (some 1000) none 2
  have h2 := adapter_single_page [demoIncident, demoIncident2, demoIncident3]
    (some 2) none 2
  exact ⟨h1.2.2.1 (by decide), h2.2.2.2 (by decide)⟩

/-- Counterexample to C3 as stated: with three matching incidents and a
requested limit of 2, `listIncidents` returns two incidents while the
response flags that more exist; and `getRecentIncidents` on 1001 matching
incidents returns only the 1000-element first page, not the complete
collection. -/
theorem adapter_pagination_counterexample :
    (listIncidentsFetch [demoIncident, demoIncident2, demoIncident3]
        (some 2) none).incidents ≠ [demoIncident, demoIncident2, demoIncident3] ∧
    (listIncidentsFetch [demoIncident, demoIncident2, demoIncident3]
        (some 2) none).more = true ∧
    getRecentIncidents (List.replicate 1001 demoIncident) ≠
      List.replicate 1001 demoIncident := by
  refine ⟨by decide, by decide, ?_⟩
  intro h
  have hL : (getRecentIncidents (List.replicate 1001 demoIncident)).length = 1000 := by
    show (((List.replicate 1001 demoIncident).drop 0).take 1000).length = 1000
    rw [List.drop_zero, List.length_take, List.length_replicate]
    decide
  have hlen := congrArg List.length h
  rw [hL, List.length_replicate] at hlen
  exact absurd hlen (by decide)

/-! Lemmas about the service-health rollup. -/

theorem bumpHealth_service_id (h : ServiceHealth) (u : Urgency) :
    (bumpHealth h u).service_id = h.service_id := by
  cases u <;> rfl

theorem bumpHealth_service_name (h : ServiceHealth) (u : Urgency) :
    (bumpHealth h u).service_name = h.service_name := by
  cases u <;> rfl

theorem alGet_mem {κ β : Type} [DecidableEq κ] (m : List (κ × β)) (k : κ) (v : β)
    (h : alGet m k = some v) : (k, v) ∈ m := by
  induction m with
  | nil => simp [alGet] at h
  | cons p rest ih =>
    obtain ⟨k2, v2⟩ := p
    by_cases hk : k2 = k
    · subst hk
      simp only [alGet, if_pos rfl] at h
      obtain rfl := Option.some.inj h
      exact List.mem_cons_self _ _
    · simp only [alGet, if_neg hk] at h
      exact List.mem_cons_of_mem _ (ih h)

theorem alGet_eq_none_iff {κ β : Type} [DecidableEq κ] (m : List (κ × β)) (k : κ) :
    alGet m k = none ↔ k ∉ m.map Prod.fst := by
  induction m with
  | nil => simp [alGet]
  | cons p rest ih =>
    obtain ⟨k2, v2⟩ := p
    by_cases hk : k2 = k
    · subst hk
      simp [alGet]
    · have hne : ¬(k = k2) := fun hh => hk hh.symm
      simp only [alGet, if_neg hk, List.map_cons, List.mem_cons]
      rw [ih]
      simp [hne]

theorem mem_alSet {κ β : Type} [DecidableEq κ] (m : List (κ × β)) (k : κ) (v : β)
    (p : κ × β) (hp : p ∈ alSet m k v) : p = (k, v) ∨ p ∈ m := by
  induction m with
  | nil =>
    simp [alSet] at hp
    exact Or.inl hp
  | cons q rest ih =>
    obtain ⟨k2, v2⟩ := q
    by_cases hk : k2 = k
    · subst hk
      rw [alSet, if_pos rfl] at hp
      rcases List.mem_cons.mp hp with rfl | hp2
      · exact Or.inl rfl
      · exact Or.inr (List.mem_cons_of_mem _ hp2)
    · rw [alSet, if_neg hk] at hp
      rcases List.mem_cons.mp hp with rfl | hp2
      · exact Or.inr (List.mem_cons_self _ _)
      · rcases ih hp2 with h | h
        · exact Or.inl h
        · exact Or.inr (List.mem_cons_of_mem _ h)

theorem mem_keys_alSet {κ β : Type} [DecidableEq κ] (m : List (κ × β)) (k : κ) (v : β)
    (k2 : κ) : k2 ∈ (alSet m k v).map Prod.fst ↔ k2 = k ∨ k2 ∈ m.map Prod.fst := by
  induction m with
  | nil => simp [alSet, eq_comm]
  | cons q rest ih =>
    obtain ⟨k3, v3⟩ := q
    by_cases hk : k3 = k
    · subst hk
      simp [alSet]
    · simp [alSet, hk, ih]
      tauto

theorem nodup_keys_alSet {κ β : Type} [DecidableEq κ] (m : List (κ × β)) (k : κ) (v : β)
    (hm : (m.map Prod.fst).Nodup) : ((alSet m k v).map Prod.fst).Nodup := by
  induction m with
  | nil => simp [alSet]
  | cons q rest ih =>
    obtain ⟨k3, v3⟩ := q
    simp only [List.map_cons, List.nodup_cons] at hm
    by_cases hk : k3 = k
    · subst hk
      rw [show alSet ((k3, v3) :: rest) k3 v = (k3, v) :: rest from by simp [alSet]]
      simp only [List.map_cons, List.nodup_cons]
      exact ⟨hm.1, hm.2⟩
    · simp only [alSet, if_neg hk, List.map_cons, List.nodup_cons]
      refine ⟨?_, ih hm.2⟩
      rw [mem_keys_alSet]
      rintro (hk3 | hk3)
      · exact hk hk3
      · exact hm.1 hk3

theorem mem_keys_healthUpsert (m : List (String × ServiceHealth)) (i : Incident)
    (k : String) :
    k ∈ (healthUpsert m i).map Prod.fst ↔ k = i.service.id ∨ k ∈ m.map Prod.fst := by
  induction m with
  | nil => simp [healthUpsert, eq_comm]
  | cons p rest ih =>
    obtain ⟨k2, h2⟩ := p
    by_cases h : k2 = i.service.id
    · subst h
      simp [healthUpsert]
    · simp [healthUpsert, h, ih]
      tauto

theorem nodup_keys_healthUpsert (m : List (String × ServiceHealth)) (i : Incident)
    (hm : (m.map Prod.fst).Nodup) : ((healthUpsert m i).map Prod.fst).Nodup := by
  induction m with
  | nil => simp [healthUpsert]
  | cons p rest ih =>
    obtain ⟨k2, h2⟩ := p
    simp only [List.map_cons, List.nodup_cons] at hm
    by_cases h : k2 = i.service.id
    · simp only [healthUpsert, if_pos h, List.map_cons, List.nodup_cons]
      exact ⟨hm.1, hm.2⟩
    · simp only [healthUpsert, if_neg h, List.map_cons, List.nodup_cons]
      refine ⟨?_, ih hm.2⟩
      rw [mem_keys_healthUpsert]
      rintro (hk | hk)
      · exact h hk
      · exact hm.1 hk

theorem alGet_healthUpsert_ne (m : List (String × ServiceHealth)) (i : Incident)
    (k : String) (h : k ≠ i.service.id) :
    alGet (healthUpsert m i) k = alGet m k := by
  induction m with
  | nil =>
    have h2 : ¬(i.service.id = k) := fun hh => h hh.symm
    simp [healthUpsert, alGet, h2]
  | cons p rest ih =>
    obtain ⟨k2, v2⟩ := p
    by_cases hk : k2 = i.service.id
    · have h2 : ¬(k2 = k) := fun hh => h (by rw [← hh, hk])
      have h3 : ¬(i.service.id = k) := fun hh => h hh.symm
      simp [healthUpsert, alGet, hk, h2, h3]
    · by_cases hk2 : k2 = k
      · simp [healthUpsert, alGet, hk, hk2, h]
      · simp [healthUpsert, alGet, hk, hk2, ih]

theorem alGet_healthUpsert_absent (m : List (String × ServiceHealth)) (i : Incident)
    (h : alGet m i.service.id = none) :
    alGet (healthUpsert m i) i.service.id =
      some (bumpHealth (initialHealth i.service.id i.service.summary) i.urgency) := by
  induction m with
  | nil => simp [healthUpsert, alGet]
  | cons p rest ih =>
    obtain ⟨k2, v2⟩ := p
    by_cases hk : k2 = i.service.id
    · simp [alGet, hk] at h
    · simp only [alGet, if_neg hk] at h
      simp [healthUpsert, alGet, hk, ih h]

theorem alGet_healthUpsert_present (m : List (String × ServiceHealth)) (i : Incident)
    (h0 : ServiceHealth) (h : alGet m i.service.id = some h0) :
    alGet (healthUpsert m i) i.service.id = some (bumpHealth h0 i.urgency) := by
  induction m with
  | nil => simp [alGet] at h
  | cons p rest ih =>
    obtain ⟨k2, v2⟩ := p
    by_cases hk : k2 = i.service.id
    · simp only [alGet, if_pos hk] at h
      obtain rfl := Option.some.inj h
      simp [healthUpsert, alGet, hk]
    · simp only [alGet, if_neg hk] at h
      simp [healthUpsert, alGet, hk, ih h]

theorem alGet_rtPush_ne (rt : List (String × List ℚ)) (k : String) (x : ℚ)
    (k2 : String) (h : k2 ≠ k) : alGet (rtPush rt k x) k2 = alGet rt k2 := by
  induction rt with
  | nil =>
    have h2 : ¬(k = k2) := fun hh => h hh.symm
    simp [rtPush, alGet, h2]
  | cons p rest ih =>
    obtain ⟨k3, xs⟩ := p
    by_cases hk : k3 = k
    · subst hk
      have h2 : ¬(k3 = k2) := fun hh => h hh.symm
      simp [rtPush, alGet, h2]
    · by_cases hk2 : k3 = k2
      · simp [rtPush, alGet, hk, hk2, h]
      · simp [rtPush, alGet, hk, hk2, ih]

theorem healthUpsert_id_inv (m : List (String × ServiceHealth)) (i : Incident)
    (hm : ∀ p ∈ m, (p : String × ServiceHealth).2.service_id = p.1) :
    ∀ p ∈ healthUpsert m i, (p : String × ServiceHealth).2.service_id = p.1 := by
  induction m with
  | nil =>
    intro p hp
    simp [healthUpsert] at hp
    subst hp
    rw [bumpHealth_service_id]
    rfl
  | cons q rest ih =>
    obtain ⟨k2, v2⟩ := q
    intro p hp
    by_cases hk : k2 = i.service.id
    · rw [healthUpsert, if_pos hk] at hp
      rcases List.mem_cons.mp hp with rfl | hp2
      · rw [bumpHealth_service_id]
        exact hm (k2, v2) (List.mem_cons_self _ _)
      · exact hm p (List.mem_cons_of_mem _ hp2)
    · rw [healthUpsert, if_neg hk] at hp
      rcases List.mem_cons.mp hp with rfl | hp2
      · exact hm (k2, v2) (List.mem_cons_self _ _)
      · exact ih (fun q hq => hm q (List.mem_cons_of_mem _ hq)) p hp2

/-! Invariants of the incident fold of `aggregateByService`. -/

theorem mem_keys_svcFold (I : List Incident) :
    ∀ (st : List (String × ServiceHealth) × List (String × List ℚ)) (k : String),
      k ∈ ((I.foldl svcStep st).1.map Prod.fst) ↔
        k ∈ st.1.map Prod.fst ∨ ∃ i ∈ I, i.service.id = k := by
  induction I with
  | nil => intro st k; simp
  | cons i I ih =>
    intro st k
    simp only [List.foldl_cons]
    rw [ih]
    have hstep : (svcStep st i).1 = healthUpsert st.1 i := rfl
    rw [hstep, mem_keys_healthUpsert]
    constructor
    · rintro ((rfl | h) | ⟨j, hj, hk⟩)
      · exact Or.inr ⟨i, List.mem_cons_self _ _, rfl⟩
      · exact Or.inl h
      · exact Or.inr ⟨j, List.mem_cons_of_mem _ hj, hk⟩
    · rintro (h | ⟨j, hj, hk⟩)
      · exact Or.inl (Or.inr h)
      · rcases List.mem_cons.mp hj with rfl | hj2
        · exact Or.inl (Or.inl hk.symm)
        · exact Or.inr ⟨j, hj2, hk⟩

theorem nodup_keys_svcFold (I : List Incident) :
    ∀ (st : List (String × ServiceHealth) × List (String × List ℚ)),
      (st.1.map Prod.fst).Nodup → (((I.foldl svcStep st).1).map Prod.fst).Nodup := by
  induction I with
  | nil => intro st h; simpa using h
  | cons i I ih =>
    intro st h
    simp only [List.foldl_cons]
    exact ih (svcStep st i) (nodup_keys_healthUpsert st.1 i h)

theorem svcFold_untouched (I : List Incident) :
    ∀ (st : List (String × ServiceHealth) × List (String × List ℚ)) (k : String),
      (∀ i ∈ I, i.service.id ≠ k) →
      alGet (I.foldl svcStep st).1 k = alGet st.1 k ∧
      alGet (I.foldl svcStep st).2 k = alGet st.2 k := by
  induction I with
  | nil => intro st k _; exact ⟨rfl, rfl⟩
  | cons i I ih =>
    intro st k hk
    simp only [List.foldl_cons]
    have hne : i.service.id ≠ k := hk i (List.mem_cons_self _ _)
    have h2 := ih (svcStep st i) k (fun j hj => hk j (List.mem_cons_of_mem _ hj))
    refine ⟨?_, ?_⟩
    · rw [h2.1]
      exact alGet_healthUpsert_ne st.1 i k (fun hh => hne hh.symm)
    · rw [h2.2]
      show alGet (if isResolvedWithTimestamp i then
        rtPush st.2 i.service.id (resolutionMinutes i) else st.2) k = alGet st.2 k
      by_cases hr : isResolvedWithTimestamp i
      · rw [if_pos hr]
        exact alGet_rtPush_ne st.2 i.service.id (resolutionMinutes i) k
          (fun hh => hne hh.symm)
      · rw [if_neg hr]

theorem svcFold_name_preserved (I : List Incident) :
    ∀ (st : List (String × ServiceHealth) × List (String × List ℚ)) (k : String)
      (h0 : ServiceHealth), alGet st.1 k = some h0 →
      ∃ h1, alGet (I.foldl svcStep st).1 k = some h1 ∧
        h1.service_name = h0.service_name := by
  induction I with
  | nil => intro st k h0 h; exact ⟨h0, h, rfl⟩
  | cons i I ih =>
    intro st k h0 h
    simp only [List.foldl_cons]
    by_cases hk : k = i.service.id
    · subst hk
      have hstep : alGet (svcStep st i).1 i.service.id =
          some (bumpHealth h0 i.urgency) :=
        alGet_healthUpsert_present st.1 i h0 h
      obtain ⟨h1, hh1, hname⟩ :=
        ih (svcStep st i) i.service.id (bumpHealth h0 i.urgency) hstep
      exact ⟨h1, hh1, by rw [hname, bumpHealth_service_name]⟩
    · have hstep : alGet (svcStep st i).1 k = some h0 := by
        show alGet (healthUpsert st.1 i) k = some h0
        rw [alGet_healthUpsert_ne st.1 i k hk]
        exact h
      exact ih (svcStep st i) k h0 hstep

theorem svcFold_new_name (I : List Incident) :
    ∀ (st : List (String × ServiceHealth) × List (String × List ℚ)) (k : String),
      alGet st.1 k = none → (∃ i ∈ I, i.service.id = k) →
      ∃ h1, alGet (I.foldl svcStep st).1 k = some h1 ∧
        ∃ j ∈ I, j.service.id = k ∧ h1.service_name = j.service.summary := by
  induction I with
  | nil =>
    intro st k _ h
    simp at h
  | cons i I ih =>
    intro st k hnone hex
    simp only [List.foldl_cons]
    by_cases hk : i.service.id = k
    · subst hk
      have hstep : alGet (svcStep st i).1 i.service.id =
          some (bumpHealth (initialHealth i.service.id i.service.summary) i.urgency) :=
        alGet_healthUpsert_absent st.1 i hnone
      obtain ⟨h1, hh1, hname⟩ :=
        svcFold_name_preserved I (svcStep st i) i.service.id _ hstep
      refine ⟨h1, hh1, i, List.mem_cons_self _ _, rfl, ?_⟩
      rw [hname, bumpHealth_service_name]
      rfl
    · have hnone2 : alGet (svcStep st i).1 k = none := by
        show alGet (healthUpsert st.1 i) k = none
        rw [alGet_healthUpsert_ne st.1 i k (fun hh => hk hh.symm)]
        exact hnone
      have hex2 : ∃ j ∈ I, j.service.id = k := by
        rcases hex with ⟨j, hj, hjk⟩
        rcases List.mem_cons.mp hj with rfl | hj2
        · exact absurd hjk hk
        · exact ⟨j, hj2, hjk⟩
      obtain ⟨h1, hh1, j, hj, hjk, hname⟩ := ih (svcStep st i) k hnone2 hex2
      exact ⟨h1, hh1, j, List.mem_cons_of_mem _ hj, hjk, hname⟩

theorem svcFold_id_inv (I : List Incident) :
    ∀ (st : List (String × ServiceHealth) × List (String × List ℚ)),
      (∀ p ∈ st.1, (p : String × ServiceHealth).2.service_id = p.1) →
      ∀ p ∈ (I.foldl svcStep st).1, (p : String × ServiceHealth).2.service_id = p.1 := by
  induction I with
  | nil => intro st h; simpa using h
  | cons i I ih =>
    intro st h
    simp only [List.foldl_cons]
    exact ih (svcStep st i) (healthUpsert_id_inv st.1 i h)

/-! Invariants of the catalog seeding loop. -/

theorem mem_keys_seed (S : List Service) (k : String) :
    k ∈ (seedServices S).map Prod.fst ↔ ∃ s ∈ S, s.id = k := by
  suffices h : ∀ m, k ∈ ((S.foldl
        (fun m s => alSet m s.id (initialHealth s.id s.name)) m).map Prod.fst) ↔
      k ∈ m.map Prod.fst ∨ ∃ s ∈ S, s.id = k by
    simpa [seedServices] using h []
  induction S with
  | nil => intro m; simp
  | cons s S ih =>
    intro m
    simp only [List.foldl_cons]
    rw [ih, mem_keys_alSet]
    constructor
    · rintro ((rfl | h) | ⟨s2, hs2, hk⟩)
      · exact Or.inr ⟨s, List.mem_cons_self _ _, rfl⟩
      · exact Or.inl h
      · exact Or.inr ⟨s2, List.mem_cons_of_mem _ hs2, hk⟩
    · rintro (h | ⟨s2, hs2, hk⟩)
      · exact Or.inl (Or.inr h)
      · rcases List.mem_cons.mp hs2 with rfl | hs3
        · exact Or.inl (Or.inl hk.symm)
        · exact Or.inr ⟨s2, hs3, hk⟩

theorem nodup_keys_seed (S : List Service) :
    ((seedServices S).map Prod.fst).Nodup := by
  suffices h : ∀ m, (m.map Prod.fst).Nodup →
      (((S.foldl (fun m s => alSet m s.id (initialHealth s.id s.name)) m)).map
        Prod.fst).Nodup by
    exact h [] (by simp)
  induction S with
  | nil => intro m hm; simpa using hm
  | cons s S ih =>
    intro m hm
    simp only [List.foldl_cons]
    exact ih _ (nodup_keys_alSet m s.id _ hm)

theorem seed_val (S : List Service) (k : String) (h0 : ServiceHealth)
    (hget : alGet (seedServices S) k = some h0) :
    ∃ nm, h0 = initialHealth k nm := by
  suffices h : ∀ m, (∀ k2 h2, alGet m k2 = some h2 → ∃ nm, h2 = initialHealth k2 nm) →
      ∀ k2 h2, alGet (S.foldl
        (fun m s => alSet m s.id (initialHealth s.id s.name)) m) k2 = some h2 →
      ∃ nm, h2 = initialHealth k2 nm by
    exact h [] (by intro k2 h2 hc; simp [alGet] at hc) k h0 hget
  clear hget
  induction S with
  | nil => intro m hm; simpa using hm
  | cons s S ih =>
    intro m hm
    simp only [List.foldl_cons]
    refine ih (alSet m s.id (initialHealth s.id s.name)) ?_
    intro k2 h2 hg
    by_cases hk : k2 = s.id
    · subst hk
      rw [alGet_alSet_self] at hg
      exact ⟨s.name, (Option.some.inj hg).symm⟩
    · rw [alGet_alSet_ne _ _ _ _ hk] at hg
      exact hm k2 h2 hg

theorem seed_id_inv (S : List Service) :
    ∀ p ∈ seedServices S, (p : String × ServiceHealth).2.service_id = p.1 := by
  suffices h : ∀ m, (∀ p ∈ m, (p : String × ServiceHealth).2.service_id = p.1) →
      ∀ p ∈ S.foldl (fun m s => alSet m s.id (initialHealth s.id s.name)) m,
        (p : String × ServiceHealth).2.service_id = p.1 by
    exact h [] (by simp)
  induction S with
  | nil => intro m hm; simpa using hm
  | cons s S ih =>
    intro m hm
    simp only [List.foldl_cons]
    refine ih _ ?_
    intro p hp
    rcases mem_alSet m s.id _ p hp with rfl | hp2
    · rfl
    · exact hm p hp2

/-! The finalizing pass of `aggregateByService`. -/

theorem finalizeHealth_service_id (rt : List (String × List ℚ))
    (p : String × ServiceHealth) :
    (finalizeHealth rt p).service_id = p.2.service_id := by
  cases h : alGet rt p.1 with
  | none => simp [finalizeHealth, h]
  | some times => by_cases ht : 0 < times.length <;> simp [finalizeHealth, h, ht]

theorem finalizeHealth_service_name (rt : List (String × List ℚ))
    (p : String × ServiceHealth) :
    (finalizeHealth rt p).service_name = p.2.service_name := by
  cases h : alGet rt p.1 with
  | none => simp [finalizeHealth, h]
  | some times => by_cases ht : 0 < times.length <;> simp [finalizeHealth, h, ht]

theorem finalizeHealth_incident_count (rt : List (String × List ℚ))
    (p : String × ServiceHealth) :
    (finalizeHealth rt p).incident_count = p.2.incident_count := by
  cases h : alGet rt p.1 with
  | none => simp [finalizeHealth, h]
  | some times => by_cases ht : 0 < times.length <;> simp [finalizeHealth, h, ht]

theorem finalizeHealth_status (rt : List (String × List ℚ))
    (p : String × ServiceHealth) :
    (finalizeHealth rt p).status = serviceStatusOf p.2.incident_count := by
  cases h : alGet rt p.1 with
  | none => simp [finalizeHealth, h]
  | some times => by_cases ht : 0 < times.length <;> simp [finalizeHealth, h, ht]

theorem finalizeHealth_avg_none (rt : List (String × List ℚ))
    (p : String × ServiceHealth) (h : alGet rt p.1 = none) :
    (finalizeHealth rt p).avg_resolution_time_minutes =
      p.2.avg_resolution_time_minutes := by
  simp [finalizeHealth, h]

theorem serviceStatusOf_thresholds (n : Nat) :
    (n ≤ 2 → serviceStatusOf n = HealthStatus.healthy) ∧
    (3 ≤ n ∧ n ≤ 5 → serviceStatusOf n = HealthStatus.warning) ∧
    (5 < n → serviceStatusOf n = HealthStatus.critical) := by
  unfold serviceStatusOf
  refine ⟨?_, ?_, ?_⟩ <;> intro h <;> split_ifs <;> first | rfl | omega

/-- Claim C7 — service-health classification: every row of the rollup output
carries the status computed purely from its own incident count by the fixed
thresholds — at most 2 incidents is healthy, 3 to 5 is warning, more than 5
is critical — regardless of the incident list, the catalog, urgencies or
resolution times. -/
theorem service_status_thresholds (I : List Incident) (S : List Service) :
    ∀ r ∈ aggregateByService I S,
      r.status = serviceStatusOf r.incident_count ∧
      (r.incident_count ≤ 2 → r.status = HealthStatus.healthy) ∧
      (3 ≤ r.incident_count ∧ r.incident_count ≤ 5 →
        r.status = HealthStatus.warning) ∧
      (5 < r.incident_count → r.status = HealthStatus.critical) := by
  intro r hr
  have hperm := jsSort_perm (fun a b => decide (b.incident_count ≤ a.incident_count))
    (((I.foldl svcStep (seedServices S, [])).1).map
      (finalizeHealth (I.foldl svcStep (seedServices S, [])).2))
  have hr2 : r ∈ ((I.foldl svcStep (seedServices S, [])).1).map
      (finalizeHealth (I.foldl svcStep (seedServices S, [])).2) :=
    hperm.mem_iff.mp hr
  rcases List.mem_map.mp hr2 with ⟨p, hp, rfl⟩
  have hstat := finalizeHealth_status (I.foldl svcStep (seedServices S, [])).2 p
  have hcount := finalizeHealth_incident_count (I.foldl svcStep (seedServices S, [])).2 p
  have hth := serviceStatusOf_thresholds p.2.incident_count
  refine ⟨by rw [hstat, hcount], ?_, ?_, ?_⟩
  · intro h
    rw [hcount] at h
    rw [hstat]
    exact hth.1 h
  · intro h
    rw [hcount] at h
    rw [hstat]
    exact hth.2.1 h
  · intro h
    rw [hcount] at h
    rw [hstat]
    exact hth.2.2 h

/-- Witness for C7: a catalog service with no incidents is classified
healthy by the thresholds. -/
theorem service_status_thresholds_witness :
    ∃ r ∈ aggregateByService [] [⟨"s1", "A"⟩], r.status = HealthStatus.healthy :=
  ⟨⟨"s1", "A", 0, 0, 0, none, HealthStatus.healthy⟩, by decide,
    (service_status_thresholds [] [⟨"s1", "A"⟩]
      ⟨"s1", "A", 0, 0, 0, none, HealthStatus.healthy⟩ (by decide)).2.1 (by decide)⟩

/-- Claim C10 — service-health row semantics: the rollup emits exactly one
row per distinct service id occurring in the catalog or referenced by an
incident; a catalog service with no incidents keeps a zero row (healthy,
null average); a service known only from incidents gets a row named by a
referencing incident's `service.summary`; and a non-empty catalog yields a
non-empty rollup even with no incidents. -/
theorem aggregateByService_rows (I : List Incident) (S : List Service) :
    ((aggregateByService I S).map (fun r => r.service_id)).Nodup ∧
    (∀ k : String, (∃ r ∈ aggregateByService I S, r.service_id = k) ↔
      ((∃ s ∈ S, s.id = k) ∨ (∃ i ∈ I, i.service.id = k))) ∧
    (∀ s ∈ S, (∀ i ∈ I, i.service.id ≠ s.id) →
      ∃ r ∈ aggregateByService I S, r.service_id = s.id ∧
        r.incident_count = 0 ∧ r.status = HealthStatus.healthy ∧
        r.avg_resolution_time_minutes = none) ∧
    (∀ i ∈ I, (∀ s ∈ S, s.id ≠ i.service.id) →
      ∃ r ∈ aggregateByService I S, r.service_id = i.service.id ∧
        ∃ j ∈ I, j.service.id = i.service.id ∧
          r.service_name = j.service.summary) ∧
    (I = [] → S ≠ [] → aggregateByService I S ≠ []) := by
  have hidinv : ∀ p ∈ (I.foldl svcStep (seedServices S, [])).1,
      (p : String × ServiceHealth).2.service_id = p.1 :=
    svcFold_id_inv I (seedServices S, []) (seed_id_inv S)
  have hperm := jsSort_perm (fun a b => decide (b.incident_count ≤ a.incident_count))
    (((I.foldl svcStep (seedServices S, [])).1).map
      (finalizeHealth (I.foldl svcStep (seedServices S, [])).2))
  have hmem : ∀ r, r ∈ aggregateByService I S ↔
      r ∈ ((I.foldl svcStep (seedServices S, [])).1).map
        (finalizeHealth (I.foldl svcStep (seedServices S, [])).2) :=
    fun r => hperm.mem_iff
  refine ⟨?_, ?_, ?_, ?_, ?_⟩
  · have hmap : (((I.foldl svcStep (seedServices S, [])).1).map
        (finalizeHealth (I.foldl svcStep (seedServices S, [])).2)).map
          (fun r => r.service_id) =
        ((I.foldl svcStep (seedServices S, [])).1).map Prod.fst := by
      rw [List.map_map]
      apply List.map_congr_left
      intro p hp
      show (finalizeHealth (I.foldl svcStep (seedServices S, [])).2 p).service_id = p.1
      rw [finalizeHealth_service_id]
      exact hidinv p hp
    have hnodup : (((I.foldl svcStep (seedServices S, [])).1).map Prod.fst).Nodup :=
      nodup_keys_svcFold I (seedServices S, []) (nodup_keys_seed S)
    exact (List.Perm.nodup_iff (hperm.map (fun r => r.service_id))).mpr
      (hmap ▸ hnodup)
  · intro k
    constructor
    · rintro ⟨r, hr, rfl⟩
      rcases List.mem_map.mp ((hmem r).mp hr) with ⟨p, hp, rfl⟩
      rw [finalizeHealth_service_id, hidinv p hp]
      have hk : p.1 ∈ ((I.foldl svcStep (seedServices S, [])).1).map Prod.fst :=
        List.mem_map.mpr ⟨p, hp, rfl⟩
      rcases (mem_keys_svcFold I (seedServices S, []) p.1).mp hk with h | h
      · exact Or.inl ((mem_keys_seed S p.1).mp h)
      · exact Or.inr h
    · intro h
      have hk : k ∈ ((I.foldl svcStep (seedServices S, [])).1).map Prod.fst := by
        apply (mem_keys_svcFold I (seedServices S, []) k).mpr
        rcases h with h | h
        · exact Or.inl ((mem_keys_seed S k).mpr h)
        · exact Or.inr h
      rcases List.mem_map.mp hk with ⟨p, hp, rfl⟩
      refine ⟨finalizeHealth (I.foldl svcStep (seedServices S, [])).2 p,
        (hmem _).mpr (List.mem_map.mpr ⟨p, hp, rfl⟩), ?_⟩
      rw [finalizeHealth_service_id, hidinv p hp]
  · intro s hs hnoinc
    have hkey : s.id ∈ (seedServices S).map Prod.fst :=
      (mem_keys_seed S s.id).mpr ⟨s, hs, rfl⟩
    obtain ⟨h0, hget⟩ : ∃ h0, alGet (seedServices S) s.id = some h0 := by
      cases hg : alGet (seedServices S) s.id with
      | none => exact absurd hkey ((alGet_eq_none_iff _ _).mp hg)
      | some h0 => exact ⟨h0, rfl⟩
    obtain ⟨nm, rfl⟩ := seed_val S s.id h0 hget
    have huntouched := svcFold_untouched I (seedServices S, []) s.id hnoinc
    have hm1 : alGet (I.foldl svcStep (seedServices S, [])).1 s.id =
        some (initialHealth s.id nm) := by
      rw [huntouched.1]
      exact hget
    have hrtnone : alGet (I.foldl svcStep (seedServices S, [])).2 s.id = none := by
      rw [huntouched.2]
      rfl
    have hp : (s.id, initialHealth s.id nm) ∈ (I.foldl svcStep (seedServices S, [])).1 :=
      alGet_mem _ s.id _ hm1
    refine ⟨finalizeHealth (I.foldl svcStep (seedServices S, [])).2
        (s.id, initialHealth s.id nm),
      (hmem _).mpr (List.mem_map.mpr ⟨_, hp, rfl⟩), ?_, ?_, ?_, ?_⟩
    · rw [finalizeHealth_service_id]
      rfl
    · rw [finalizeHealth_incident_count]
      rfl
    · rw [finalizeHealth_status]
      rfl
    · rw [finalizeHealth_avg_none _ _ hrtnone]
      rfl
  · intro i hi hnos
    have hseednone : alGet (seedServices S) i.service.id = none := by
      rw [alGet_eq_none_iff]
      intro hk
      rcases (mem_keys_seed S i.service.id).mp hk with ⟨s, hs, hsid⟩
      exact hnos s hs hsid
    obtain ⟨h1, hh1, j, hj, hjk, hname⟩ :=
      svcFold_new_name I (seedServices S, []) i.service.id hseednone ⟨i, hi, rfl⟩
    have hp : (i.service.id, h1) ∈ (I.foldl svcStep (seedServices S, [])).1 :=
      alGet_mem _ i.service.id h1 hh1
    refine ⟨finalizeHealth (I.foldl svcStep (seedServices S, [])).2 (i.service.id, h1),
      (hmem _).mpr (List.mem_map.mpr ⟨_, hp, rfl⟩), ?_, j, hj, hjk, ?_⟩
    · rw [finalizeHealth_service_id]
      exact hidinv _ hp
    · rw [finalizeHealth_service_name]
      exact hname
  · intro hI hS hrows
    subst hI
    obtain ⟨s, hs⟩ := List.exists_mem_of_ne_nil S hS
    have hkey : s.id ∈ (seedServices S).map Prod.fst :=
      (mem_keys_seed S s.id).mpr ⟨s, hs, rfl⟩
    have hlen : (aggregateByService [] S).length =
        (seedServices S).length := by
      have h := hperm.length_eq
      simpa using h
    rw [hrows] at hlen
    have hnil : seedServices S = [] := by
      have h0 : (seedServices S).length = 0 := by simpa using hlen.symm
      rwa [List.length_eq_zero] at h0
    rw [hnil] at hkey
    simp at hkey

/-- Witness for C10: with one incident on service s2 and a catalog holding
only s1, the rollup still emits a zero healthy row for s1. -/
theorem aggregateByService_rows_witness :
    ∃ r ∈ aggregateByService [demoIncident3] [⟨"s1", "A"⟩],
      r.service_id = "s1" ∧ r.incident_count = 0 ∧
      r.status = HealthStatus.healthy ∧ r.avg_resolution_time_minutes = none :=
  (aggregateByService_rows [demoIncident3] [⟨"s1", "A"⟩]).2.2.1
    ⟨"s1", "A"⟩ (by decide) (by decide)

end PDMCP
